import Mathlib

/-!
Verification of the D-LiFi mesh protocol engine (street-lamp firmware,
variant src/structure/v3/upg plus the HQ firmware src/src/hq/arduino).

Strings on the wire are modelled as lists of characters; machine integers
are modelled as natural numbers with explicit reductions modulo 2^8 or
2^16 at the points where the C++ code truncates.  Every definition below
is a direct transcription of the corresponding C++ function.
-/

namespace DLiFi

/-- Wire strings (Arduino String) are lists of characters. -/
abbrev Str := List Char

/-! ## Compile-time constants (config.h of the lamp, v3/upg) -/

def CACHE_SIZE : Nat := 3
def GRADIENT_TOLERANCE : Nat := 1
def INITIAL_HOP : Nat := 99
def RETRANSMIT_COUNT : Nat := 2
def RETRANSMIT_INTERVAL : Nat := 10000
def REDUNDANCY_WINDOW : Nat := 60000
def RETRANSMIT_QUEUE_SIZE : Nat := 3

def NODE_ID : Str := "102a".toList
def HQ_ID : Str := "000h".toList
def BROADCAST_ID : Str := "FFFF".toList

/-- Macro IS_FROM_HQ(src) of config.h: src == HQ_ID. -/
def IS_FROM_HQ (src : Str) : Bool := src = HQ_ID

/-- HQ firmware constant (src/src/hq/arduino/config.h): CACHE_SIZE 8. -/
def HQ_CACHE_SIZE : Nat := 8

/-- HQ firmware constant HQ_HOP = 0. -/
def HQ_HOP : Nat := 0

/-! ## Hash (simpleHash of lifi.h)

The C++ loop keeps h in a uint16_t, so every iteration truncates
modulo 2^16. -/

/-- One iteration of the body of simpleHash: h = h * 31 + s[i] on uint16_t. -/
def hashStep (h : Nat) (c : Char) : Nat := (h * 31 + c.toNat) % 65536

/-- Indexed loop of simpleHash, processing the characters in order. -/
def hashLoop : Nat → Str → Nat
  | h, [] => h
  | h, c :: cs => hashLoop (hashStep h c) cs

/-- simpleHash(String s) of lifi.h. -/
def simpleHash (s : Str) : Nat := hashLoop 0 s

/-! ## ASCII numeric parsing

Arduino String::toInt calls atol, which skips leading white space,
accepts an optional sign and then consumes decimal digits, returning 0
if none are present.  The MESSAGE branch uses strtol(..., 16) which
additionally accepts an optional 0x/0X prefix and hexadecimal digits. -/

def isSpaceChar (c : Char) : Bool :=
  c = ' ' ∨ c = '\t' ∨ c = '\n' ∨ c = '\x0b' ∨ c = '\x0c' ∨ c = '\r'

def isDigitChar (c : Char) : Bool := 48 ≤ c.toNat ∧ c.toNat ≤ 57

/-- Accumulate leading decimal digits, stopping at the first non-digit. -/
def decAcc : Str → Nat → Nat
  | [], acc => acc
  | c :: cs, acc =>
      if isDigitChar c then decAcc cs (acc * 10 + (c.toNat - 48)) else acc

/-- atol semantics used by String::toInt. -/
def atolM (s : Str) : Int :=
  match s.dropWhile isSpaceChar with
  | '-' :: rest => - (decAcc rest 0 : Int)
  | '+' :: rest => (decAcc rest 0 : Int)
  | other => (decAcc other 0 : Int)

/-- Value of a hexadecimal digit, 16 for a non-digit (sentinel). -/
def hexVal (c : Char) : Nat :=
  if 48 ≤ c.toNat ∧ c.toNat ≤ 57 then c.toNat - 48
  else if 65 ≤ c.toNat ∧ c.toNat ≤ 70 then c.toNat - 55
  else if 97 ≤ c.toNat ∧ c.toNat ≤ 102 then c.toNat - 87
  else 16

def isHexChar (c : Char) : Bool := hexVal c < 16

/-- Accumulate leading hexadecimal digits. -/
def hexAcc : Str → Nat → Nat
  | [], acc => acc
  | c :: cs, acc => if isHexChar c then hexAcc cs (acc * 16 + hexVal c) else acc

/-- Hexadecimal digits with optional 0x/0X prefix, as in strtol base 16. -/
def hexBody (s : Str) : Nat :=
  match s with
  | '0' :: 'x' :: rest =>
      if isHexChar (rest.headD ' ') then hexAcc rest 0 else 0
  | '0' :: 'X' :: rest =>
      if isHexChar (rest.headD ' ') then hexAcc rest 0 else 0
  | other => hexAcc other 0

/-- strtol(s, NULL, 16) semantics. -/
def strtol16M (s : Str) : Int :=
  match s.dropWhile isSpaceChar with
  | '-' :: rest => - (hexBody rest : Int)
  | '+' :: rest => (hexBody rest : Int)
  | other => (hexBody other : Int)

/-- Conversion of a C long to uint8_t (reduction modulo 256). -/
def toUInt8M (i : Int) : Nat := (i % 256).toNat

/-- Conversion of a C long to uint16_t (reduction modulo 65536). -/
def toUInt16M (i : Int) : Nat := (i % 65536).toNat

/-! ## Rendering -/

/-- sprintf("%02d", n) for 0 ≤ n ≤ 999, which covers every uint8_t value. -/
def sprint02d (n : Nat) : Str :=
  if n < 10 then ['0', Char.ofNat (48 + n)]
  else if n < 100 then [Char.ofNat (48 + n / 10), Char.ofNat (48 + n % 10)]
  else [Char.ofNat (48 + n / 100), Char.ofNat (48 + (n / 10) % 10),
        Char.ofNat (48 + n % 10)]

/-- String::substring(a, b): the characters at indices a ≤ i < b. -/
def substr (s : Str) (a b : Nat) : Str := (s.drop a).take (b - a)

/-- Indexing header[i] on an Arduino String (space default out of range). -/
def charAt (s : Str) (i : Nat) : Char := (s.drop i).headD ' '

/-! ## Deduplication cache (isNew of lifi.h)

A cache is the global array (a list of CACHE_SIZE entries) together
with the insertion cursor cacheIndex. -/

structure CacheEntry where
  src : Str
  msgHash : Nat
deriving DecidableEq, Repr

/-- Default-initialised cache slot: String src = "", uint16_t msgHash = 0. -/
def emptyEntry : CacheEntry := ⟨[], 0⟩

/-- The search loop of isNew: some slot matches both src and hash. -/
def cacheHas (cache : List CacheEntry) (src : Str) (h : Nat) : Bool :=
  cache.any (fun e => decide (e.src = src ∧ e.msgHash = h))

/-- isNew(src, hash) of lifi.h, acting on (cache, cacheIndex) of size sz.
Returns the boolean result together with the updated cache state. -/
def isNew (sz : Nat) (cache : List CacheEntry) (idx : Nat) (src : Str)
    (h : Nat) : Bool × List CacheEntry × Nat :=
  if cacheHas cache src h then (false, cache, idx)
  else (true, cache.set idx ⟨src, h⟩, (idx + 1) % sz)

/-! ## Lamp node state and packet processing (lifi.h, v3/upg)

The process-lifetime globals of the lamp are the cache array with its
cursor, lastInitID and myHop (a uint8_t, kept in 0..255).  Serial
prints and LED blinks are not modelled; the observable effects of a
call are the irSend emissions (header, message) and the LiFi local
actions (lifiTransmit payloads). -/

structure LampState where
  cache : List CacheEntry
  cacheIndex : Nat
  lastInitID : Str
  myHop : Nat
deriving DecidableEq, Repr

/-- Modelled from the spec: the definitions of the globals live in the
main sketch, which is not part of the sources; per §3 of the spec the
cache starts empty (default slots), lastInitID starts unset and myHop
starts at INITIAL_HOP = 99. -/
def initialLamp : LampState :=
  ⟨[emptyEntry, emptyEntry, emptyEntry], 0, [], INITIAL_HOP⟩

/-- Result of forwardPacket: updated state, irSend emissions and
lifiTransmit payloads, in order. -/
structure FwdResult where
  state : LampState
  sent : List (Str × Str)
  lifi : List Str
deriving DecidableEq, Repr

/-- processInit(header) of lifi.h.  The comparison receivedHop < myHop - 1
is evaluated by C++ in int; since receivedHop ≥ 0, truncated Nat
subtraction gives the same branch for every myHop in 0..255.  Both
assignments to the uint8_t myHop truncate modulo 256. -/
def processInit (st : LampState) (header : Str) : LampState × List (Str × Str) :=
  let src := substr header 0 4
  let initID := substr header 4 6
  let hopStr := substr header 6 8
  let receivedHop := toUInt8M (atolM hopStr)
  let st1 :=
    if initID = st.lastInitID then
      if receivedHop < st.myHop - 1 then
        { st with myHop := (receivedHop + 1) % 256 }
      else st
    else
      { st with lastInitID := initID, myHop := (receivedHop + 1) % 256 }
  let newHop := (receivedHop + 1) % 256
  let newHeader := src ++ initID ++ sprint02d newHop ++ ['0']
  (st1, [(newHeader, [])])

/-- generateSOS() of lifi.h: builds the SOS header from NODE_ID, HQ_ID
and myHop, seeds the cache with (NODE_ID, 0) ignoring the result, and
emits the header. -/
def generateSOS (st : LampState) : LampState × List (Str × Str) :=
  let hopStr := sprint02d st.myHop
  let header := NODE_ID ++ HQ_ID ++ ['3'] ++ hopStr
  let r := isNew CACHE_SIZE st.cache st.cacheIndex NODE_ID 0
  ({ st with cache := r.2.1, cacheIndex := r.2.2 }, [(header, [])])

/-- forwardPacket(header, message, ...) of lifi.h, transcribed branch by
branch.  Type characters: '0' INIT, '3' SOS, '4' MESSAGE; any header of
length 13 falls into the BROADCAST/TARGETED branch. -/
def forwardPacket (st : LampState) (header message : Str) : FwdResult :=
  if header.length < 9 then ⟨st, [], []⟩ else
  let src := substr header 0 4
  let dst := substr header 4 8
  let type := charAt header 8
  if type = '0' ∧ header.length = 9 then
    let r := processInit st header
    ⟨r.1, r.2, []⟩
  else if type = '3' ∧ header.length = 11 then
    let msgHop := toUInt8M (atolM (substr header 9 11))
    if st.myHop ≤ msgHop + GRADIENT_TOLERANCE then
      let r := isNew CACHE_SIZE st.cache st.cacheIndex src 0
      let st1 := { st with cache := r.2.1, cacheIndex := r.2.2 }
      if r.1 then
        let newHop := if msgHop > 0 then msgHop - 1 else 0
        let newHeader := src ++ dst ++ [type] ++ sprint02d newHop
        ⟨st1, [(newHeader, [])], []⟩
      else ⟨st1, [], []⟩
    else ⟨st, [], []⟩
  else if type = '4' ∧ header.length = 15 then
    let hashStr := substr header 9 13
    let hopStr := substr header 13 15
    let receivedHash := toUInt16M (strtol16M hashStr)
    let msgHop := toUInt8M (atolM hopStr)
    if simpleHash message ≠ receivedHash then ⟨st, [], []⟩
    else if st.myHop ≤ msgHop + GRADIENT_TOLERANCE then
      let r := isNew CACHE_SIZE st.cache st.cacheIndex src receivedHash
      let st1 := { st with cache := r.2.1, cacheIndex := r.2.2 }
      if r.1 then
        let newHop := if msgHop > 0 then msgHop - 1 else 0
        let newHeader := src ++ dst ++ [type] ++ hashStr ++ sprint02d newHop
        ⟨st1, [(newHeader, message)], []⟩
      else ⟨st1, [], []⟩
    else ⟨st, [], []⟩
  else if header.length = 13 then
    let hashStr := substr header 9 13
    let receivedHash := toUInt16M (strtol16M hashStr)
    if simpleHash message ≠ receivedHash then ⟨st, [], []⟩
    else
      let r := isNew CACHE_SIZE st.cache st.cacheIndex src receivedHash
      let st1 := { st with cache := r.2.1, cacheIndex := r.2.2 }
      let sent := if r.1 then [(header, message)] else []
      let lifi :=
        if type = '1' ∧ dst = BROADCAST_ID ∧ IS_FROM_HQ src then [message]
        else if type = '2' ∧ dst = NODE_ID ∧ IS_FROM_HQ src then [message]
        else []
      ⟨st1, sent, lifi⟩
  else ⟨st, [], []⟩

/-! ## HQ packet processing (src/src/hq/arduino/lifi.h)

The HQ state is its cache (8 slots).  The observable effect of
processPacket is the host-bridge delivery lines (src, type, body). -/

structure HQState where
  cache : List CacheEntry
  cacheIndex : Nat
deriving DecidableEq, Repr

/-- Modelled from the spec: the HQ sketch initialises its globals to an
empty 8-slot cache with cursor 0. -/
def initialHQ : HQState :=
  ⟨List.replicate HQ_CACHE_SIZE emptyEntry, 0⟩

/-- processPacket(header, message) of the HQ firmware.  Local delivery
to the host happens only inside the isNew guard. -/
def processPacket (st : HQState) (header message : Str) :
    HQState × List (Str × Char × Str) :=
  if header.length < 9 then (st, []) else
  let src := substr header 0 4
  let type := charAt header 8
  if type = '3' ∧ header.length = 11 then
    let r := isNew HQ_CACHE_SIZE st.cache st.cacheIndex src 0
    let st1 : HQState := ⟨r.2.1, r.2.2⟩
    if r.1 then (st1, [(src, type, "SOS".toList)]) else (st1, [])
  else if type = '4' ∧ header.length = 15 then
    let hashStr := substr header 9 13
    let receivedHash := toUInt16M (strtol16M hashStr)
    if simpleHash message ≠ receivedHash then (st, [])
    else
      let r := isNew HQ_CACHE_SIZE st.cache st.cacheIndex src receivedHash
      let st1 : HQState := ⟨r.2.1, r.2.2⟩
      if r.1 then (st1, [(src, type, message)]) else (st1, [])
  else (st, [])

/-! ## Retransmission queue (addToRetransmitQueue / processRetransmitQueue)

A single queue entry is modelled through its lifetime; time is the
millis() counter as a natural number.  processEntry is the body of the
per-slot loop of processRetransmitQueue; the returned boolean records
whether irSendRaw was invoked (a retry emission). -/

structure RetransmitEntry where
  header : Str
  message : Str
  firstSentTime : Nat
  sentCount : Nat
  active : Bool
deriving DecidableEq, Repr

/-- The slot as addToRetransmitQueue fills it: sentCount = 1 because the
first transmission has already happened, active = true. -/
def freshEntry (h m : Str) (now : Nat) : RetransmitEntry :=
  ⟨h, m, now, 1, true⟩

/-- One pass of processRetransmitQueue over one slot at time now. -/
def processEntry (now : Nat) (e : RetransmitEntry) : RetransmitEntry × Bool :=
  if ¬ e.active then (e, false)
  else
    let elapsed := now - e.firstSentTime
    if elapsed > REDUNDANCY_WINDOW then ({ e with active := false }, false)
    else if e.sentCount * RETRANSMIT_INTERVAL ≤ elapsed ∧
            e.sentCount < RETRANSMIT_COUNT then
      ({ e with sentCount := e.sentCount + 1 }, true)
    else (e, false)

/-- Repeated queue pumping at the given sequence of times; returns the
final entry and the number of retry emissions. -/
def runTicks (e : RetransmitEntry) : List Nat → RetransmitEntry × Nat
  | [] => (e, 0)
  | t :: ts =>
      let r := processEntry t e
      let rest := runTicks r.1 ts
      (rest.1, (if r.2 then 1 else 0) + rest.2)

/-! ## Iterated processing -/

/-- Processing a sequence of INIT headers at a lamp (repeated processInit,
emissions discarded). -/
def processInits (st : LampState) : List Str → LampState
  | [] => st
  | h :: hs => processInits (processInit st h).1 hs

/-- Processing a sequence of received packets at a lamp through
forwardPacket (the receive loop). -/
def runLamp (st : LampState) : List (Str × Str) → LampState
  | [] => st
  | e :: es => runLamp (forwardPacket st e.1 e.2).state es

/-- One checkAndInsert call on a (cache, cursor) pair for one entry. -/
def cacheStep (s : List CacheEntry × Nat) (p : CacheEntry) :
    List CacheEntry × Nat :=
  (isNew CACHE_SIZE s.1 s.2 p.src p.msgHash).2

/-- Running a sequence of (src, hash) pairs through checkAndInsert. -/
def runCache (s : List CacheEntry × Nat) (ps : List CacheEntry) :
    List CacheEntry × Nat :=
  ps.foldl cacheStep s

/-- Modelled from the spec: the cache array and cursor are defined in the
main sketch (not in the sources); at boot the ring holds three
default-initialised slots and the cursor is 0. -/
def initialCachePair : List CacheEntry × Nat :=
  ([emptyEntry, emptyEntry, emptyEntry], 0)

/-! ## Ring-as-queue view of the cache, used for the dedup sequence claims.
Reading the ring starting at the cursor turns append-at-cursor into
drop-oldest-append-newest. -/

/-- One cache step in queue view: hit leaves the word, miss drops the
oldest slot and appends the new entry. -/
def wstep (w : List CacheEntry) (p : CacheEntry) : List CacheEntry :=
  if p ∈ w then w else w.tail ++ [p]

/-- Queue view of a run of entries. -/
def wrun (w : List CacheEntry) (ps : List CacheEntry) : List CacheEntry :=
  ps.foldl wstep w

/-- The ring contents read starting at the cursor. -/
def wordOf (s : List CacheEntry × Nat) : List CacheEntry :=
  s.1.rotate s.2

/-- The boot cache in queue view. -/
def w0cache : List CacheEntry := [emptyEntry, emptyEntry, emptyEntry]

/-- A concrete sequence of seven (src, hash) pairs over five distinct
values, with repeats, used to refute the dedup idempotence claim. -/
def ceSeq : List CacheEntry :=
  [⟨['a'], 0⟩, ⟨['b'], 0⟩, ⟨['c'], 0⟩, ⟨['a'], 0⟩, ⟨['d'], 0⟩, ⟨['a'], 0⟩,
   ⟨['e'], 0⟩]

/-! ## Helper lemmas on header fields -/

theorem drop_len_append {α : Type} (l₁ l₂ : List α) {n : Nat}
    (h : l₁.length = n) : (l₁ ++ l₂).drop n = l₂ := by
  subst h; exact List.drop_left l₁ l₂

theorem take_len_append {α : Type} (l₁ l₂ : List α) {n : Nat}
    (h : l₁.length = n) : (l₁ ++ l₂).take n = l₁ := by
  subst h; exact List.take_left l₁ l₂

theorem substr_field (pre mid post : Str) {a b : Nat}
    (hpre : pre.length = a) (hmid : mid.length = b - a) :
    substr (pre ++ (mid ++ post)) a b = mid := by
  unfold substr
  rw [drop_len_append pre (mid ++ post) hpre, take_len_append mid post hmid]

theorem charAt_field (pre : Str) (c : Char) (post : Str) {n : Nat}
    (hpre : pre.length = n) : charAt (pre ++ (c :: post)) n = c := by
  unfold charAt
  rw [drop_len_append pre (c :: post) hpre]
  rfl

theorem isSpaceChar_of_digit {c : Char} (h : isDigitChar c = true) :
    isSpaceChar c = false := by
  unfold isDigitChar at h
  unfold isSpaceChar
  simp only [decide_eq_true_eq] at h
  have h32 : c.toNat ≠ 32 := by omega
  have h9 : c.toNat ≠ 9 := by omega
  have h10 : c.toNat ≠ 10 := by omega
  have h11 : c.toNat ≠ 11 := by omega
  have h12 : c.toNat ≠ 12 := by omega
  have h13 : c.toNat ≠ 13 := by omega
  simp only [decide_eq_false_iff_not]
  push_neg
  refine ⟨?_, ?_, ?_, ?_, ?_, ?_⟩ <;> intro hc <;> subst hc <;> simp_all

/-- On an all-digit string, atol just accumulates the digits. -/
theorem atolM_digits (s : Str) (h : s.all isDigitChar) :
    atolM s = (decAcc s 0 : Int) := by
  unfold atolM
  have hdrop : s.dropWhile isSpaceChar = s := by
    cases s with
    | nil => rfl
    | cons c rest =>
        have hc : isDigitChar c = true := by
          simp only [List.all_cons, Bool.and_eq_true] at h
          exact h.1
        rw [List.dropWhile_cons, isSpaceChar_of_digit hc]
        simp
  rw [hdrop]
  cases s with
  | nil => rfl
  | cons c rest =>
      have hc : isDigitChar c = true := by
        simp only [List.all_cons, Bool.and_eq_true] at h
        exact h.1
      have hminus : c ≠ '-' := by
        intro he; subst he; simp [isDigitChar] at hc
      have hplus : c ≠ '+' := by
        intro he; subst he; simp [isDigitChar] at hc
      cases c with
      | mk v hv =>
        split
        next heq => injection heq with h1 h2; exact absurd h1 hminus
        next heq => injection heq with h1 h2; exact absurd h1 hplus
        next => rfl

/-- An all-digit string of length at most two accumulates to at most 99. -/
theorem decAcc_le_99 (s : Str) (h : s.all isDigitChar) (hl : s.length ≤ 2) :
    decAcc s 0 ≤ 99 := by
  match s, hl with
  | [], _ => simp [decAcc]
  | [c], _ =>
      simp only [List.all_cons, List.all_nil, Bool.and_eq_true] at h
      have h1 := h.1
      unfold isDigitChar at h1
      simp only [decide_eq_true_eq] at h1
      simp only [decAcc, h.1, if_pos]
      omega
  | [c, d], _ =>
      simp only [List.all_cons, List.all_nil, Bool.and_eq_true] at h
      obtain ⟨h1, h2, -⟩ := h
      have h1' := h1
      have h2' := h2
      unfold isDigitChar at h1' h2'
      simp only [decide_eq_true_eq] at h1' h2'
      simp only [decAcc, h1, h2, if_pos]
      omega

theorem toUInt8M_ofNat {v : Nat} (h : v < 256) : toUInt8M (v : Int) = v := by
  unfold toUInt8M
  omega

/-- On a well-formed two-digit hop field the parsed uint8_t value is the
decimal value, at most 99. -/
theorem hopField_value (s : Str) (h : s.all isDigitChar) (hl : s.length ≤ 2) :
    toUInt8M (atolM s) = decAcc s 0 ∧ decAcc s 0 ≤ 99 := by
  have hle := decAcc_le_99 s h hl
  rw [atolM_digits s h, toUInt8M_ofNat (by omega)]
  exact ⟨rfl, hle⟩

/-! ## Branch evaluation lemmas for well-formed headers -/

theorem sos_fields (src dst hopStr : Str)
    (hs : src.length = 4) (hd : dst.length = 4) (hh : hopStr.length = 2) :
    substr (src ++ dst ++ ['3'] ++ hopStr) 0 4 = src ∧
    substr (src ++ dst ++ ['3'] ++ hopStr) 4 8 = dst ∧
    charAt (src ++ dst ++ ['3'] ++ hopStr) 8 = '3' ∧
    substr (src ++ dst ++ ['3'] ++ hopStr) 9 11 = hopStr ∧
    (src ++ dst ++ ['3'] ++ hopStr).length = 11 := by
  have hassoc : src ++ dst ++ ['3'] ++ hopStr = src ++ (dst ++ ('3' :: hopStr)) := by
    simp
  refine ⟨?_, ?_, ?_, ?_, ?_⟩
  · rw [hassoc]
    unfold substr
    simp only [Nat.sub_zero, List.drop_zero]
    exact take_len_append _ _ hs
  · rw [hassoc, show dst ++ ('3' :: hopStr) = dst ++ (['3'] ++ hopStr) from rfl]
    exact @substr_field src dst (['3'] ++ hopStr) 4 8 hs (by omega)
  · rw [show src ++ dst ++ ['3'] ++ hopStr = (src ++ dst) ++ ('3' :: hopStr) by simp]
    exact charAt_field (src ++ dst) '3' hopStr (by simp [hs, hd])
  · rw [show src ++ dst ++ ['3'] ++ hopStr = (src ++ dst ++ ['3']) ++ (hopStr ++ []) by
      simp]
    exact @substr_field (src ++ dst ++ ['3']) hopStr [] 9 11 (by simp [hs, hd])
      (by omega)
  · simp [hs, hd, hh]

/-- Evaluation of forwardPacket on a well-formed SOS header. -/
theorem forwardPacket_sos_eval (st : LampState) (src dst hopStr msg : Str)
    (hs : src.length = 4) (hd : dst.length = 4) (hh : hopStr.length = 2) :
    forwardPacket st (src ++ dst ++ ['3'] ++ hopStr) msg =
      (if st.myHop ≤ toUInt8M (atolM hopStr) + GRADIENT_TOLERANCE then
        if cacheHas st.cache src 0 then ⟨st, [], []⟩
        else ⟨⟨st.cache.set st.cacheIndex ⟨src, 0⟩, (st.cacheIndex + 1) % CACHE_SIZE,
               st.lastInitID, st.myHop⟩,
              [(src ++ dst ++ ['3'] ++
                  sprint02d (if toUInt8M (atolM hopStr) > 0 then
                    toUInt8M (atolM hopStr) - 1 else 0), [])], []⟩
      else ⟨st, [], []⟩) := by
  obtain ⟨e1, e2, e3, e4, e5⟩ := sos_fields src dst hopStr hs hd hh
  unfold forwardPacket
  simp only [e1, e2, e3, e4, e5]
  norm_num
  by_cases hg : st.myHop ≤ toUInt8M (atolM hopStr) + GRADIENT_TOLERANCE
  · simp only [hg, if_pos]
    by_cases hhit : cacheHas st.cache src 0
    · simp [isNew, hhit]
    · simp [isNew, hhit]
  · simp [hg]

theorem message_fields (src dst hashStr hopStr : Str)
    (hs : src.length = 4) (hd : dst.length = 4) (ha : hashStr.length = 4)
    (hh : hopStr.length = 2) :
    substr (src ++ dst ++ ['4'] ++ hashStr ++ hopStr) 0 4 = src ∧
    substr (src ++ dst ++ ['4'] ++ hashStr ++ hopStr) 4 8 = dst ∧
    charAt (src ++ dst ++ ['4'] ++ hashStr ++ hopStr) 8 = '4' ∧
    substr (src ++ dst ++ ['4'] ++ hashStr ++ hopStr) 9 13 = hashStr ∧
    substr (src ++ dst ++ ['4'] ++ hashStr ++ hopStr) 13 15 = hopStr ∧
    (src ++ dst ++ ['4'] ++ hashStr ++ hopStr).length = 15 := by
  refine ⟨?_, ?_, ?_, ?_, ?_, ?_⟩
  · rw [show src ++ dst ++ ['4'] ++ hashStr ++ hopStr =
        src ++ (dst ++ ('4' :: (hashStr ++ hopStr))) by simp]
    unfold substr
    simp only [Nat.sub_zero, List.drop_zero]
    exact take_len_append _ _ hs
  · rw [show src ++ dst ++ ['4'] ++ hashStr ++ hopStr =
        src ++ (dst ++ (['4'] ++ hashStr ++ hopStr)) by simp]
    exact @substr_field src dst (['4'] ++ hashStr ++ hopStr) 4 8 hs (by omega)
  · rw [show src ++ dst ++ ['4'] ++ hashStr ++ hopStr =
        (src ++ dst) ++ ('4' :: (hashStr ++ hopStr)) by simp]
    exact charAt_field (src ++ dst) '4' (hashStr ++ hopStr) (by simp [hs, hd])
  · rw [show src ++ dst ++ ['4'] ++ hashStr ++ hopStr =
        (src ++ dst ++ ['4']) ++ (hashStr ++ hopStr) by simp]
    exact @substr_field (src ++ dst ++ ['4']) hashStr hopStr 9 13
      (by simp [hs, hd]) (by omega)
  · rw [show src ++ dst ++ ['4'] ++ hashStr ++ hopStr =
        (src ++ dst ++ ['4'] ++ hashStr) ++ (hopStr ++ []) by simp]
    exact @substr_field (src ++ dst ++ ['4'] ++ hashStr) hopStr [] 13 15
      (by simp [hs, hd, ha]) (by omega)
  · simp [hs, hd, ha, hh]

/-- Evaluation of forwardPacket on a well-formed MESSAGE header. -/
theorem forwardPacket_message_eval (st : LampState) (src dst hashStr hopStr msg : Str)
    (hs : src.length = 4) (hd : dst.length = 4) (ha : hashStr.length = 4)
    (hh : hopStr.length = 2) :
    forwardPacket st (src ++ dst ++ ['4'] ++ hashStr ++ hopStr) msg =
      (if simpleHash msg ≠ toUInt16M (strtol16M hashStr) then ⟨st, [], []⟩
       else if st.myHop ≤ toUInt8M (atolM hopStr) + GRADIENT_TOLERANCE then
        if cacheHas st.cache src (toUInt16M (strtol16M hashStr)) then ⟨st, [], []⟩
        else ⟨⟨st.cache.set st.cacheIndex ⟨src, toUInt16M (strtol16M hashStr)⟩,
               (st.cacheIndex + 1) % CACHE_SIZE, st.lastInitID, st.myHop⟩,
              [(src ++ dst ++ ['4'] ++ hashStr ++
                  sprint02d (if toUInt8M (atolM hopStr) > 0 then
                    toUInt8M (atolM hopStr) - 1 else 0), msg)], []⟩
       else ⟨st, [], []⟩) := by
  obtain ⟨e1, e2, e3, e4, e5, e6⟩ := message_fields src dst hashStr hopStr hs hd ha hh
  unfold forwardPacket
  simp only [e1, e2, e3, e4, e5, e6]
  norm_num
  by_cases hint : simpleHash msg = toUInt16M (strtol16M hashStr)
  · simp only [hint, if_pos, ite_not, if_neg, not_true_eq_false, ite_false, ite_true]
    by_cases hg : st.myHop ≤ toUInt8M (atolM hopStr) + GRADIENT_TOLERANCE
    · simp only [hg, if_pos]
      by_cases hhit : cacheHas st.cache src (toUInt16M (strtol16M hashStr))
      · simp [isNew, hhit, hint]
      · simp [isNew, hhit, hint]
    · simp [hg, hint]
  · simp [hint]

theorem standard_fields (src dst hashStr : Str) (t : Char)
    (hs : src.length = 4) (hd : dst.length = 4) (ha : hashStr.length = 4) :
    substr (src ++ dst ++ [t] ++ hashStr) 0 4 = src ∧
    substr (src ++ dst ++ [t] ++ hashStr) 4 8 = dst ∧
    charAt (src ++ dst ++ [t] ++ hashStr) 8 = t ∧
    substr (src ++ dst ++ [t] ++ hashStr) 9 13 = hashStr ∧
    (src ++ dst ++ [t] ++ hashStr).length = 13 := by
  refine ⟨?_, ?_, ?_, ?_, ?_⟩
  · rw [show src ++ dst ++ [t] ++ hashStr = src ++ (dst ++ (t :: hashStr)) by simp]
    unfold substr
    simp only [Nat.sub_zero, List.drop_zero]
    exact take_len_append _ _ hs
  · rw [show src ++ dst ++ [t] ++ hashStr = src ++ (dst ++ ([t] ++ hashStr)) by simp]
    exact @substr_field src dst ([t] ++ hashStr) 4 8 hs (by omega)
  · rw [show src ++ dst ++ [t] ++ hashStr = (src ++ dst) ++ (t :: hashStr) by simp]
    exact charAt_field (src ++ dst) t hashStr (by simp [hs, hd])
  · rw [show src ++ dst ++ [t] ++ hashStr =
        (src ++ dst ++ [t]) ++ (hashStr ++ []) by simp]
    exact @substr_field (src ++ dst ++ [t]) hashStr [] 9 13
      (by simp [hs, hd]) (by omega)
  · simp [hs, hd, ha]

/-- Evaluation of forwardPacket on a 13-byte BROADCAST/TARGETED header,
for an arbitrary type character. -/
theorem forwardPacket_standard_eval (st : LampState) (src dst hashStr msg : Str)
    (t : Char) (hs : src.length = 4) (hd : dst.length = 4) (ha : hashStr.length = 4) :
    forwardPacket st (src ++ dst ++ [t] ++ hashStr) msg =
      (if simpleHash msg ≠ toUInt16M (strtol16M hashStr) then ⟨st, [], []⟩
       else
        let lifiE : List Str :=
          if t = '1' ∧ dst = BROADCAST_ID ∧ IS_FROM_HQ src then [msg]
          else if t = '2' ∧ dst = NODE_ID ∧ IS_FROM_HQ src then [msg]
          else []
        if cacheHas st.cache src (toUInt16M (strtol16M hashStr)) then
          ⟨st, [], lifiE⟩
        else ⟨⟨st.cache.set st.cacheIndex ⟨src, toUInt16M (strtol16M hashStr)⟩,
               (st.cacheIndex + 1) % CACHE_SIZE, st.lastInitID, st.myHop⟩,
              [(src ++ dst ++ [t] ++ hashStr, msg)], lifiE⟩) := by
  obtain ⟨e1, e2, e3, e4, e5⟩ := standard_fields src dst hashStr t hs hd ha
  unfold forwardPacket
  simp only [e1, e2, e3, e4, e5]
  norm_num
  by_cases hint : simpleHash msg = toUInt16M (strtol16M hashStr)
  · simp only [hint, not_true_eq_false, ite_false, if_neg]
    by_cases hhit : cacheHas st.cache src (toUInt16M (strtol16M hashStr))
    · simp [isNew, hhit, hint]
    · simp [isNew, hhit, hint]
  · simp [hint]

theorem init_fields (src initID hopStr : Str)
    (hs : src.length = 4) (hi : initID.length = 2) (hh : hopStr.length = 2) :
    substr (src ++ initID ++ hopStr ++ ['0']) 0 4 = src ∧
    substr (src ++ initID ++ hopStr ++ ['0']) 4 6 = initID ∧
    substr (src ++ initID ++ hopStr ++ ['0']) 6 8 = hopStr ∧
    charAt (src ++ initID ++ hopStr ++ ['0']) 8 = '0' ∧
    (src ++ initID ++ hopStr ++ ['0']).length = 9 := by
  refine ⟨?_, ?_, ?_, ?_, ?_⟩
  · rw [show src ++ initID ++ hopStr ++ ['0'] =
        src ++ (initID ++ (hopStr ++ ['0'])) by simp]
    unfold substr
    simp only [Nat.sub_zero, List.drop_zero]
    exact take_len_append _ _ hs
  · rw [show src ++ initID ++ hopStr ++ ['0'] =
        src ++ (initID ++ (hopStr ++ ['0'])) by simp]
    exact @substr_field src initID (hopStr ++ ['0']) 4 6 hs (by omega)
  · rw [show src ++ initID ++ hopStr ++ ['0'] =
        (src ++ initID) ++ (hopStr ++ ['0']) by simp]
    exact @substr_field (src ++ initID) hopStr ['0'] 6 8 (by simp [hs, hi])
      (by omega)
  · rw [show src ++ initID ++ hopStr ++ ['0'] =
        (src ++ initID ++ hopStr) ++ ('0' :: []) by simp]
    exact charAt_field (src ++ initID ++ hopStr) '0' [] (by simp [hs, hi, hh])
  · simp [hs, hi, hh]

/-- Evaluation of processInit on a well-formed INIT header. -/
theorem processInit_eval (st : LampState) (src initID hopStr : Str)
    (hs : src.length = 4) (hi : initID.length = 2) (hh : hopStr.length = 2) :
    processInit st (src ++ initID ++ hopStr ++ ['0']) =
      (let receivedHop := toUInt8M (atolM hopStr)
       ((if initID = st.lastInitID then
          if receivedHop < st.myHop - 1 then
            ⟨st.cache, st.cacheIndex, st.lastInitID, (receivedHop + 1) % 256⟩
          else st
        else ⟨st.cache, st.cacheIndex, initID, (receivedHop + 1) % 256⟩),
        [(src ++ initID ++ sprint02d ((receivedHop + 1) % 256) ++ ['0'], [])])) := by
  obtain ⟨e1, e2, e3, e4, e5⟩ := init_fields src initID hopStr hs hi hh
  unfold processInit
  simp only [e1, e2, e3]

/-- Evaluation of forwardPacket on a well-formed INIT header: it always
dispatches to processInit. -/
theorem forwardPacket_init_eval (st : LampState) (src initID hopStr msg : Str)
    (hs : src.length = 4) (hi : initID.length = 2) (hh : hopStr.length = 2) :
    forwardPacket st (src ++ initID ++ hopStr ++ ['0']) msg =
      ⟨(processInit st (src ++ initID ++ hopStr ++ ['0'])).1,
       (processInit st (src ++ initID ++ hopStr ++ ['0'])).2, []⟩ := by
  obtain ⟨e1, e2, e3, e4, e5⟩ := init_fields src initID hopStr hs hi hh
  unfold forwardPacket
  simp only [e4, e5]
  norm_num

/-! ## Shared lemmas about the hash and the cache -/

theorem hashLoop_eq_foldl (s : Str) (h : Nat) :
    hashLoop h s = s.foldl (fun a c => (a * 31 + c.toNat) % 65536) h := by
  induction s generalizing h with
  | nil => rfl
  | cons c cs ih => simp only [hashLoop, List.foldl_cons, hashStep, ih]

theorem cacheHas_iff (c : List CacheEntry) (s : Str) (h : Nat) :
    cacheHas c s h = true ↔ ∃ e ∈ c, e.src = s ∧ e.msgHash = h := by
  simp [cacheHas, List.any_eq_true]

/-! ## Claim theorems -/

/-- C3 counterexample: the pinned test vector hash("HELP!") = 0x28F9 of the
claim is false on the code; simpleHash("HELP!") evaluates to 0x2100. -/
theorem C3_counterexample : simpleHash ("HELP!".toList) ≠ 0x28F9 := by decide

theorem hashLoop_append (s : Str) (c : Char) (h : Nat) :
    hashLoop h (s ++ [c]) = hashStep (hashLoop h s) c := by
  induction s generalizing h with
  | nil => rfl
  | cons d ds ih =>
      show hashLoop (hashStep h d) (ds ++ [c]) =
        hashStep (hashLoop (hashStep h d) ds) c
      exact ih (hashStep h d)

/-- C3 (amended): simpleHash satisfies the 16-bit polynomial recurrence
hash(s ++ [b]) = (31 * hash(s) + b) mod 2^16 with hash("") = 0, and the
correct test vectors are hash("") = 0x0000, hash("A") = 0x0041 and
hash("HELP!") = 0x2100 (not 0x28F9). -/
theorem C3_thm :
    (∀ (s : Str) (c : Char),
      simpleHash (s ++ [c]) = (simpleHash s * 31 + c.toNat) % 65536) ∧
    simpleHash [] = 0x0000 ∧
    simpleHash ("A".toList) = 0x0041 ∧
    simpleHash ("HELP!".toList) = 0x2100 :=
  ⟨fun s c => hashLoop_append s c 0, by decide, by decide, by decide⟩

/-- C4: checkAndInsert (isNew) returns true and writes the pair at the
cursor slot, advancing the cursor mod CACHE_SIZE, iff no existing slot
matches both src and hash; otherwise it returns false and leaves the
cache and the cursor unchanged. -/
theorem C4_thm (cache : List CacheEntry) (idx : Nat) (src : Str) (h : Nat) :
    ((isNew CACHE_SIZE cache idx src h).1 = true ↔
      ¬ ∃ e ∈ cache, e.src = src ∧ e.msgHash = h) ∧
    ((¬ ∃ e ∈ cache, e.src = src ∧ e.msgHash = h) →
      isNew CACHE_SIZE cache idx src h =
        (true, cache.set idx ⟨src, h⟩, (idx + 1) % CACHE_SIZE)) ∧
    ((∃ e ∈ cache, e.src = src ∧ e.msgHash = h) →
      isNew CACHE_SIZE cache idx src h = (false, cache, idx)) := by
  by_cases hc : cacheHas cache src h
  · have hex := (cacheHas_iff cache src h).mp hc
    refine ⟨?_, ?_, ?_⟩
    · simp [isNew, hc, hex]
    · intro hne; exact absurd hex hne
    · intro _; simp [isNew, hc]
  · have hnex : ¬ ∃ e ∈ cache, e.src = src ∧ e.msgHash = h := by
      rw [← cacheHas_iff]; simpa using hc
    refine ⟨?_, ?_, ?_⟩
    · simp [isNew, hc, hnex]
    · intro _; simp [isNew, hc]
    · intro hex; exact absurd hex hnex

/-- C4 witness: inserting a fresh pair into the boot cache. -/
theorem C4_witness :
    isNew CACHE_SIZE [emptyEntry, emptyEntry, emptyEntry] 0 NODE_ID 55 =
      (true, [⟨NODE_ID, 55⟩, emptyEntry, emptyEntry], 1) :=
  (C4_thm [emptyEntry, emptyEntry, emptyEntry] 0 NODE_ID 55).2.1 (by decide)

/-- C9 (code bug): a received INIT with hop field 99 is re-emitted by
forwardPacket with hop rendered as the three digits 100, so the
constructed header has 10 bytes and breaks the 9-byte INIT wire
contract (in the C++ code sprintf also overruns its 3-byte buffer). -/
theorem C9_thm :
    (forwardPacket initialLamp ("000h01990".toList) []).sent =
      [(("000h011000".toList), [])] ∧
    ("000h01990".toList).length = 9 ∧
    ("000h011000".toList).length = 10 ∧
    substr ("000h011000".toList) 6 9 = "100".toList := by
  refine ⟨by decide, by decide, by decide, by decide⟩

/-! ## myHop lemmas for the reachability claim -/

theorem forwardPacket_myHop (st : LampState) (h m : Str) :
    (forwardPacket st h m).state.myHop = st.myHop ∨
    ((charAt h 8 = '0' ∧ h.length = 9) ∧
      (forwardPacket st h m).state = (processInit st h).1) := by
  simp only [forwardPacket]
  repeat' split
  all_goals first
    | exact Or.inl rfl
    | exact Or.inr ⟨by assumption, rfl⟩

theorem processInit_myHop_ge (st : LampState) (h : Str)
    (h1 : 1 ≤ st.myHop) (hd : (substr h 6 8).all isDigitChar) :
    1 ≤ (processInit st h).1.myHop := by
  have hlen : (substr h 6 8).length ≤ 2 := by
    unfold substr
    simp [List.length_take]
  obtain ⟨hv, hle⟩ := hopField_value (substr h 6 8) hd hlen
  unfold processInit
  simp only [hv]
  have hmod : (decAcc (substr h 6 8) 0 + 1) % 256 = decAcc (substr h 6 8) 0 + 1 := by
    omega
  split_ifs <;> simp_all <;> omega

/-- C10 counterexample: the header 000h01-10 is accepted as an INIT
(9 bytes ending in the type character 0); its hop field -1 is parsed by
toInt to -1, cast to uint8_t as 255, and receivedHop + 1 wraps, so the
lamp state reaches myHop = 0, the value reserved for HQ. -/
theorem C10_counterexample :
    (forwardPacket initialLamp ("000h01-10".toList) []).state.myHop = 0 := by
  decide

/-- C10 (amended): myHop starts at INITIAL_HOP = 99, and as long as every
received INIT header carries a decimal-digit hop field, every reachable
lamp state has myHop ≥ 1 (each INIT assignment sets receivedHop + 1 with
receivedHop ≤ 99, so no uint8_t wrap occurs); a malformed hop field such
as -1 is the only way to reach myHop = 0. -/
theorem C10_thm :
    initialLamp.myHop = INITIAL_HOP ∧
    ∀ (st : LampState) (events : List (Str × Str)), 1 ≤ st.myHop →
      (∀ e ∈ events, charAt e.1 8 = '0' ∧ e.1.length = 9 →
        (substr e.1 6 8).all isDigitChar) →
      1 ≤ (runLamp st events).myHop := by
  refine ⟨rfl, ?_⟩
  intro st events
  induction events generalizing st with
  | nil => intro h1 _; exact h1
  | cons e es ih =>
      intro h1 hall
      have hstep : 1 ≤ (forwardPacket st e.1 e.2).state.myHop := by
        rcases forwardPacket_myHop st e.1 e.2 with heq | ⟨hinit, heq⟩
        · omega
        · rw [heq]
          exact processInit_myHop_ge st e.1 h1
            (hall e (List.mem_cons_self e es) hinit)
      exact ih _ hstep (fun x hx hi => hall x (List.mem_cons_of_mem e hx) hi)

/-- C10 witness: one well-formed INIT from the boot state keeps
myHop ≥ 1. -/
theorem C10_witness :
    1 ≤ (runLamp initialLamp [(("000h01000".toList), ([] : Str))]).myHop :=
  C10_thm.2 initialLamp [(("000h01000".toList), ([] : Str))] (by decide)
    (by decide)

/-! ## Gradient update lemmas -/

theorem processInit_same_epoch (st : LampState) (h : Str)
    (he : substr h 4 6 = st.lastInitID) :
    (processInit st h).1.myHop ≤ st.myHop ∧
    (processInit st h).1.lastInitID = st.lastInitID := by
  unfold processInit
  simp only [he, if_pos]
  split_ifs with hlt
  · constructor
    · have : (toUInt8M (atolM (substr h 6 8)) + 1) % 256 ≤
          toUInt8M (atolM (substr h 6 8)) + 1 := Nat.mod_le _ _
      simp only []
      omega
    · rfl
  · exact ⟨le_refl _, rfl⟩

/-- C2: processing an INIT at a lamp follows the two-branch gradient rule
(same epoch: strict improvement only; new epoch: unconditional reset to
receivedHop + 1 together with lastInitId), and over any sequence of INITs
within the current epoch myHop is non-increasing and the epoch tag is
unchanged. -/
theorem C2_thm :
    (∀ (st : LampState) (src initID hopStr : Str),
      src.length = 4 → initID.length = 2 → hopStr.length = 2 →
      hopStr.all isDigitChar →
      ((processInit st (src ++ initID ++ hopStr ++ ['0'])).1.myHop =
        if initID = st.lastInitID then
          (if decAcc hopStr 0 < st.myHop - 1 then decAcc hopStr 0 + 1
           else st.myHop)
        else decAcc hopStr 0 + 1) ∧
      ((processInit st (src ++ initID ++ hopStr ++ ['0'])).1.lastInitID =
        if initID = st.lastInitID then st.lastInitID else initID)) ∧
    (∀ (st : LampState) (headers : List Str),
      (∀ h ∈ headers, substr h 4 6 = st.lastInitID) →
      (processInits st headers).myHop ≤ st.myHop ∧
      (processInits st headers).lastInitID = st.lastInitID) := by
  constructor
  · intro st src initID hopStr hs hi hh hd
    obtain ⟨hv, hle⟩ := hopField_value hopStr hd (by omega)
    rw [processInit_eval st src initID hopStr hs hi hh]
    simp only [hv]
    have hmod : (decAcc hopStr 0 + 1) % 256 = decAcc hopStr 0 + 1 := by omega
    split_ifs <;> simp_all
  · intro st headers
    induction headers generalizing st with
    | nil => intro _; exact ⟨le_refl _, rfl⟩
    | cons h hs ih =>
        intro hall
        obtain ⟨h1, h2⟩ := processInit_same_epoch st h
          (hall h (List.mem_cons_self h hs))
        obtain ⟨h3, h4⟩ := ih (processInit st h).1
          (fun x hx => by
            rw [h2]; exact hall x (List.mem_cons_of_mem h hx))
        exact ⟨le_trans h3 h1, by rw [show processInits st (h :: hs) =
          processInits (processInit st h).1 hs from rfl, h4, h2]⟩

/-- C2 witness: a same-epoch INIT with a strictly better hop at a node
with lastInitID = 01, myHop = 5 lowers myHop to 3, and a sequence of
same-epoch INITs never raises myHop. -/
theorem C2_witness :
    ((processInit ⟨[emptyEntry, emptyEntry, emptyEntry], 0, "01".toList, 5⟩
        (("102b".toList) ++ ("01".toList) ++ ("02".toList) ++ ['0'])).1.myHop =
      if ("01".toList) = ("01".toList) then
        (if decAcc ("02".toList) 0 < 5 - 1 then decAcc ("02".toList) 0 + 1
         else 5)
      else decAcc ("02".toList) 0 + 1) ∧
    (processInits ⟨[emptyEntry, emptyEntry, emptyEntry], 0, "01".toList, 5⟩
        ["000h01020".toList]).myHop ≤ 5 :=
  ⟨((C2_thm.1 ⟨[emptyEntry, emptyEntry, emptyEntry], 0, "01".toList, 5⟩
      ("102b".toList) ("01".toList) ("02".toList)
      (by decide) (by decide) (by decide) (by decide)).1),
   (C2_thm.2 ⟨[emptyEntry, emptyEntry, emptyEntry], 0, "01".toList, 5⟩
      ["000h01020".toList] (by decide)).1⟩

/-- C1: a lamp re-emits a received SOS iff myHop ≤ msgHop + K and the
dedup check on (src, 0) misses; the re-emitted header only replaces the
hop field by max(msgHop - 1, 0) (truncated subtraction); the analogous
condition with (src, hash) governs MESSAGE packets (which must first
pass the integrity check); consequently a node with myHop > msgHop + K
never re-emits the SOS or MESSAGE it receives. -/
theorem C1_thm (st : LampState) (src dst hopStr hashStr msg : Str)
    (hs : src.length = 4) (hd : dst.length = 4) (hh : hopStr.length = 2)
    (ha : hashStr.length = 4) :
    (((forwardPacket st (src ++ dst ++ ['3'] ++ hopStr) msg).sent ≠ [] ↔
       (st.myHop ≤ toUInt8M (atolM hopStr) + GRADIENT_TOLERANCE ∧
        cacheHas st.cache src 0 = false)) ∧
     ((forwardPacket st (src ++ dst ++ ['3'] ++ hopStr) msg).sent ≠ [] →
       (forwardPacket st (src ++ dst ++ ['3'] ++ hopStr) msg).sent =
         [(src ++ dst ++ ['3'] ++ sprint02d (toUInt8M (atolM hopStr) - 1), [])]) ∧
     (toUInt8M (atolM hopStr) + GRADIENT_TOLERANCE < st.myHop →
       (forwardPacket st (src ++ dst ++ ['3'] ++ hopStr) msg).sent = [])) ∧
    ((simpleHash msg = toUInt16M (strtol16M hashStr) →
      (((forwardPacket st (src ++ dst ++ ['4'] ++ hashStr ++ hopStr) msg).sent ≠ [] ↔
         (st.myHop ≤ toUInt8M (atolM hopStr) + GRADIENT_TOLERANCE ∧
          cacheHas st.cache src (simpleHash msg) = false)) ∧
       ((forwardPacket st (src ++ dst ++ ['4'] ++ hashStr ++ hopStr) msg).sent ≠ [] →
         (forwardPacket st (src ++ dst ++ ['4'] ++ hashStr ++ hopStr) msg).sent =
           [(src ++ dst ++ ['4'] ++ hashStr ++
               sprint02d (toUInt8M (atolM hopStr) - 1), msg)]))) ∧
     (toUInt8M (atolM hopStr) + GRADIENT_TOLERANCE < st.myHop →
       (forwardPacket st (src ++ dst ++ ['4'] ++ hashStr ++ hopStr) msg).sent = [])) := by
  have hif : (if toUInt8M (atolM hopStr) > 0 then toUInt8M (atolM hopStr) - 1
      else 0) = toUInt8M (atolM hopStr) - 1 := by split_ifs <;> omega
  rw [forwardPacket_sos_eval st src dst hopStr msg hs hd hh,
    forwardPacket_message_eval st src dst hashStr hopStr msg hs hd ha hh]
  simp only [hif]
  constructor
  · by_cases hg : st.myHop ≤ toUInt8M (atolM hopStr) + GRADIENT_TOLERANCE
    · by_cases hhit : cacheHas st.cache src 0
      · simp [hg, hhit]
      · simp [hg, hhit]
    · simp [hg]
  · by_cases hint : simpleHash msg = toUInt16M (strtol16M hashStr)
    · by_cases hg : st.myHop ≤ toUInt8M (atolM hopStr) + GRADIENT_TOLERANCE
      · by_cases hhit : cacheHas st.cache src (toUInt16M (strtol16M hashStr))
        · simp [hg, hhit, hint]
        · simp [hg, hhit, hint]
      · simp [hg, hint]
    · simp [hint]

/-- C1 witness: a lamp at myHop = 3 re-emits an SOS carrying msgHop = 2
with the hop decremented to 01. -/
theorem C1_witness :
    (forwardPacket ⟨[emptyEntry, emptyEntry, emptyEntry], 0, [], 3⟩
        (("111b".toList) ++ ("000h".toList) ++ ['3'] ++ ("02".toList)) []).sent =
      [(("111b".toList) ++ ("000h".toList) ++ ['3'] ++
          sprint02d (toUInt8M (atolM ("02".toList)) - 1), [])] :=
  (C1_thm ⟨[emptyEntry, emptyEntry, emptyEntry], 0, [], 3⟩ ("111b".toList)
      ("000h".toList) ("02".toList) ("0041".toList) []
      (by decide) (by decide) (by decide) (by decide)).1.2.1 (by decide)

/-! ## Cache-effect lemmas for origination and forwarding -/

theorem generateSOS_seeds_cache (st : LampState)
    (hidx : st.cacheIndex < st.cache.length) :
    cacheHas (generateSOS st).1.cache NODE_ID 0 = true := by
  unfold generateSOS
  by_cases hhit : cacheHas st.cache NODE_ID 0
  · simp [isNew, hhit]
  · simp only [isNew, hhit, ite_false, Bool.false_eq_true]
    rw [cacheHas_iff]
    refine ⟨⟨NODE_ID, 0⟩, ?_, rfl, rfl⟩
    rw [List.set_eq_take_cons_drop _ hidx]
    exact List.mem_append_right _ (List.mem_cons_self _ _)

theorem sos_forward_cache (st : LampState) (src dst hopStr msg : Str)
    (hs : src.length = 4) (hd : dst.length = 4) (hh : hopStr.length = 2) :
    (forwardPacket st (src ++ dst ++ ['3'] ++ hopStr) msg).state.cache =
      (if st.myHop ≤ toUInt8M (atolM hopStr) + GRADIENT_TOLERANCE ∧
          cacheHas st.cache src 0 = false
       then st.cache.set st.cacheIndex ⟨src, 0⟩ else st.cache) := by
  rw [forwardPacket_sos_eval st src dst hopStr msg hs hd hh]
  by_cases hg : st.myHop ≤ toUInt8M (atolM hopStr) + GRADIENT_TOLERANCE
  · by_cases hhit : cacheHas st.cache src 0
    · simp [hg, hhit]
    · simp [hg, hhit]
  · simp [hg]

theorem processInit_cache_free (st : LampState) (header : Str) :
    (processInit st header).1.cache = st.cache ∧
    (processInit st header).1.cacheIndex = st.cacheIndex ∧
    (processInit st header).2 ≠ [] := by
  simp only [processInit]
  split_ifs <;> simp

/-- C5 counterexample: INIT processing does not consult the dedup cache.
With (HQ, 0) already cached, a received INIT from HQ is still re-emitted
and the cache is untouched, so INIT re-flooding is not bounded by the
cache (contrary to the claim's INIT clause). -/
theorem C5_counterexample :
    (forwardPacket ⟨[⟨HQ_ID, 0⟩, emptyEntry, emptyEntry], 1, [], 99⟩
        ("000h01000".toList) []).sent ≠ [] ∧
    (forwardPacket ⟨[⟨HQ_ID, 0⟩, emptyEntry, emptyEntry], 1, [], 99⟩
        ("000h01000".toList) []).state.cache =
      [⟨HQ_ID, 0⟩, emptyEntry, emptyEntry] := by
  exact ⟨by decide, by decide⟩

/-- C5 (amended): SOS origination seeds the cache with the sentinel pair
(NODE_ID, 0) and SOS forwarding inserts (src, 0) exactly when the
gradient passes and the pair is new, so a node contributes one
unsuppressed SOS per cache lifetime; INIT processing, however, never
reads or writes the cache and always re-emits. -/
theorem C5_thm :
    (∀ st : LampState, st.cacheIndex < st.cache.length →
      cacheHas (generateSOS st).1.cache NODE_ID 0 = true) ∧
    (∀ (st : LampState) (src dst hopStr msg : Str),
      src.length = 4 → dst.length = 4 → hopStr.length = 2 →
      (forwardPacket st (src ++ dst ++ ['3'] ++ hopStr) msg).state.cache =
        (if st.myHop ≤ toUInt8M (atolM hopStr) + GRADIENT_TOLERANCE ∧
            cacheHas st.cache src 0 = false
         then st.cache.set st.cacheIndex ⟨src, 0⟩ else st.cache)) ∧
    (∀ (st : LampState) (header : Str),
      (processInit st header).1.cache = st.cache ∧
      (processInit st header).1.cacheIndex = st.cacheIndex ∧
      (processInit st header).2 ≠ []) :=
  ⟨generateSOS_seeds_cache,
   fun st src dst hopStr msg hs hd hh =>
     sos_forward_cache st src dst hopStr msg hs hd hh,
   processInit_cache_free⟩

/-- C5 witness: originating an SOS from the boot state caches
(NODE_ID, 0). -/
theorem C5_witness :
    cacheHas (generateSOS initialLamp).1.cache NODE_ID 0 = true :=
  C5_thm.1 initialLamp (by decide)

/-! ## HQ processPacket evaluation -/

theorem processPacket_sos_eval (st : HQState) (src dst hopStr msg : Str)
    (hs : src.length = 4) (hd : dst.length = 4) (hh : hopStr.length = 2) :
    processPacket st (src ++ dst ++ ['3'] ++ hopStr) msg =
      (if cacheHas st.cache src 0 then (st, [])
       else (⟨st.cache.set st.cacheIndex ⟨src, 0⟩,
              (st.cacheIndex + 1) % HQ_CACHE_SIZE⟩,
             [(src, '3', "SOS".toList)])) := by
  obtain ⟨e1, e2, e3, e4, e5⟩ := sos_fields src dst hopStr hs hd hh
  unfold processPacket
  simp only [e1, e3, e5]
  norm_num
  by_cases hhit : cacheHas st.cache src 0
  · simp [isNew, hhit]
  · simp [isNew, hhit]

theorem processPacket_message_eval (st : HQState) (src dst hashStr hopStr msg : Str)
    (hs : src.length = 4) (hd : dst.length = 4) (ha : hashStr.length = 4)
    (hh : hopStr.length = 2) :
    processPacket st (src ++ dst ++ ['4'] ++ hashStr ++ hopStr) msg =
      (if simpleHash msg ≠ toUInt16M (strtol16M hashStr) then (st, [])
       else if cacheHas st.cache src (toUInt16M (strtol16M hashStr)) then (st, [])
       else (⟨st.cache.set st.cacheIndex ⟨src, toUInt16M (strtol16M hashStr)⟩,
              (st.cacheIndex + 1) % HQ_CACHE_SIZE⟩,
             [(src, '4', msg)])) := by
  obtain ⟨e1, e2, e3, e4, e5, e6⟩ := message_fields src dst hashStr hopStr hs hd ha hh
  unfold processPacket
  simp only [e1, e3, e4, e6]
  norm_num
  by_cases hint : simpleHash msg = toUInt16M (strtol16M hashStr)
  · by_cases hhit : cacheHas st.cache src (toUInt16M (strtol16M hashStr))
    · simp [isNew, hhit, hint]
    · simp [isNew, hhit, hint]
  · simp [hint]

/-- C6 counterexample: the same authorized BROADCAST processed twice by a
lamp is locally delivered to LiFi both times; the second pass has the
(src, hash) pair in the cache, is not forwarded, and is still
re-delivered, so the local action is not at-most-once. -/
theorem C6_counterexample :
    (cacheHas (forwardPacket initialLamp ("000hFFFF10041".toList)
        ("A".toList)).state.cache ("000h".toList) 65 = true) ∧
    (forwardPacket (forwardPacket initialLamp ("000hFFFF10041".toList)
        ("A".toList)).state ("000hFFFF10041".toList) ("A".toList)).sent = [] ∧
    (forwardPacket (forwardPacket initialLamp ("000hFFFF10041".toList)
        ("A".toList)).state ("000hFFFF10041".toList) ("A".toList)).lifi =
      [("A".toList)] := by
  exact ⟨by decide, by decide, by decide⟩

/-- C6 (amended): a packet whose (src, hash) pair is in the dedup cache
is never forwarded, and at HQ the host delivery for such a duplicate is
suppressed (for SOS with sentinel hash 0 and for MESSAGE with its content
hash); at a lamp, however, the LiFi local action for a valid authorized
BROADCAST/TARGETED is performed on every reception, duplicate or not. -/
theorem C6_thm :
    (∀ (st : LampState) (src dst hashStr msg : Str) (t : Char),
      src.length = 4 → dst.length = 4 → hashStr.length = 4 →
      cacheHas st.cache src (toUInt16M (strtol16M hashStr)) = true →
      (forwardPacket st (src ++ dst ++ [t] ++ hashStr) msg).sent = [] ∧
      (forwardPacket st (src ++ dst ++ [t] ++ hashStr) msg).lifi =
        (if simpleHash msg ≠ toUInt16M (strtol16M hashStr) then []
         else if t = '1' ∧ dst = BROADCAST_ID ∧ IS_FROM_HQ src then [msg]
         else if t = '2' ∧ dst = NODE_ID ∧ IS_FROM_HQ src then [msg]
         else [])) ∧
    (∀ (st : HQState) (src dst hopStr msg : Str),
      src.length = 4 → dst.length = 4 → hopStr.length = 2 →
      cacheHas st.cache src 0 = true →
      (processPacket st (src ++ dst ++ ['3'] ++ hopStr) msg).2 = []) ∧
    (∀ (st : HQState) (src dst hashStr hopStr msg : Str),
      src.length = 4 → dst.length = 4 → hashStr.length = 4 →
      hopStr.length = 2 →
      cacheHas st.cache src (toUInt16M (strtol16M hashStr)) = true →
      (processPacket st (src ++ dst ++ ['4'] ++ hashStr ++ hopStr) msg).2 = []) := by
  refine ⟨?_, ?_, ?_⟩
  · intro st src dst hashStr msg t hs hd ha hdup
    rw [forwardPacket_standard_eval st src dst hashStr msg t hs hd ha]
    by_cases hint : simpleHash msg = toUInt16M (strtol16M hashStr)
    · simp [hint, hdup]
    · simp [hint]
  · intro st src dst hopStr msg hs hd hh hdup
    rw [processPacket_sos_eval st src dst hopStr msg hs hd hh]
    simp [hdup]
  · intro st src dst hashStr hopStr msg hs hd ha hh hdup
    rw [processPacket_message_eval st src dst hashStr hopStr msg hs hd ha hh]
    by_cases hint : simpleHash msg = toUInt16M (strtol16M hashStr)
    · simp [hint, hdup]
    · simp [hint]

/-- C6 witness: a duplicate SOS at HQ produces no host delivery. -/
theorem C6_witness :
    (processPacket ⟨⟨"111b".toList, 0⟩ :: List.replicate 7 emptyEntry, 1⟩
        (("111b".toList) ++ ("000h".toList) ++ ['3'] ++ ("02".toList))
        []).2 = [] :=
  C6_thm.2.1 ⟨⟨"111b".toList, 0⟩ :: List.replicate 7 emptyEntry, 1⟩
    ("111b".toList) ("000h".toList) ("02".toList) []
    (by decide) (by decide) (by decide) (by decide)

/-! ## Retransmit entry lemmas -/

theorem processEntry_sentCount (now : Nat) (e : RetransmitEntry) :
    ((processEntry now e).2 = true ∧
      (processEntry now e).1.sentCount = e.sentCount + 1 ∧
      e.sentCount < RETRANSMIT_COUNT) ∨
    ((processEntry now e).2 = false ∧
      (processEntry now e).1.sentCount = e.sentCount) := by
  simp only [processEntry]
  split_ifs <;> simp_all

theorem runTicks_emissions_le (ts : List Nat) (e : RetransmitEntry) :
    (runTicks e ts).2 ≤ RETRANSMIT_COUNT - e.sentCount := by
  induction ts generalizing e with
  | nil => simp [runTicks]
  | cons t ts ih =>
      show (if (processEntry t e).2 then 1 else 0) +
        (runTicks (processEntry t e).1 ts).2 ≤ RETRANSMIT_COUNT - e.sentCount
      rcases processEntry_sentCount t e with ⟨hb, hc, hlt⟩ | ⟨hb, hc⟩
      · have := ih (processEntry t e).1
        rw [hc] at this
        simp only [hb, if_pos]
        omega
      · have := ih (processEntry t e).1
        rw [hc] at this
        simp [hb]
        omega

/-- C7: a freshly enqueued entry (sentCount = 1 covering the first
transmission) emits at most RETRANSMIT_COUNT times in total over any
sequence of queue-pump ticks; a retry fires only when the entry is
active, sentCount · RETRANSMIT_INTERVAL ≤ now - firstSentTime,
sentCount < RETRANSMIT_COUNT and the redundancy window has not expired;
when the window expires the tick deactivates the entry without emitting;
and an inactive entry never emits nor reactivates. -/
theorem C7_thm :
    (∀ (h m : Str) (t0 : Nat) (ts : List Nat),
      1 + (runTicks (freshEntry h m t0) ts).2 ≤ RETRANSMIT_COUNT) ∧
    (∀ (now : Nat) (e : RetransmitEntry), (processEntry now e).2 = true →
      e.active = true ∧
      e.sentCount * RETRANSMIT_INTERVAL ≤ now - e.firstSentTime ∧
      e.sentCount < RETRANSMIT_COUNT ∧
      now - e.firstSentTime ≤ REDUNDANCY_WINDOW) ∧
    (∀ (now : Nat) (e : RetransmitEntry), e.active = true →
      REDUNDANCY_WINDOW < now - e.firstSentTime →
      processEntry now e = ({ e with active := false }, false)) ∧
    (∀ (e : RetransmitEntry) (ts : List Nat), e.active = false →
      runTicks e ts = (e, 0)) := by
  refine ⟨?_, ?_, ?_, ?_⟩
  · intro h m t0 ts
    have h1 := runTicks_emissions_le ts (freshEntry h m t0)
    have h2 : RETRANSMIT_COUNT - (freshEntry h m t0).sentCount = 1 := rfl
    have h3 : RETRANSMIT_COUNT = 2 := rfl
    rw [h2] at h1
    omega
  · intro now e hem
    simp only [processEntry] at hem
    split_ifs at hem <;> simp_all
  · intro now e ha hw
    simp only [processEntry]
    split_ifs <;> simp_all
  · intro e ts ha
    induction ts with
    | nil => rfl
    | cons t ts ih =>
        show (let r := processEntry t e
              let rest := runTicks r.1 ts
              (rest.1, (if r.2 then 1 else 0) + rest.2)) = (e, 0)
        have hpe : processEntry t e = (e, false) := by
          simp only [processEntry]
          simp [ha]
        simp [hpe, ih]

/-- C7 witness: a tick after the redundancy window deactivates a fresh
entry without emitting, and the emission bound holds on a short run. -/
theorem C7_witness :
    processEntry 70000 (freshEntry [] [] 0) =
      ({ freshEntry [] [] 0 with active := false }, false) ∧
    1 + (runTicks (freshEntry [] [] 0) [10000, 20000, 30000]).2 ≤
      RETRANSMIT_COUNT :=
  ⟨C7_thm.2.2.1 70000 (freshEntry [] [] 0) rfl (by decide),
   C7_thm.1 [] [] 0 [10000, 20000, 30000]⟩

/-! ## Dedup double-run lemmas (queue view of the ring) -/

theorem drop_append_ge {α : Type} (l₁ l₂ : List α) (n : Nat) (h : l₁.length ≤ n) :
    (l₁ ++ l₂).drop n = l₂.drop (n - l₁.length) := by
  induction l₁ generalizing n with
  | nil => simp
  | cons a l ih =>
      cases n with
      | zero => simp at h
      | succ m =>
          simp only [List.cons_append, List.drop_succ_cons, List.length_cons]
          rw [ih m (by simpa using h)]
          congr 1
          omega

theorem wrun_append (w : List CacheEntry) (A B : List CacheEntry) :
    wrun w (A ++ B) = wrun (wrun w A) B := List.foldl_append _ _ _ _

theorem wrun_all_mem (w : List CacheEntry) (S : List CacheEntry)
    (h : ∀ p ∈ S, p ∈ w) : wrun w S = w := by
  induction S with
  | nil => rfl
  | cons p S ih =>
      have hp : p ∈ w := h p (List.mem_cons_self _ _)
      show wrun (wstep w p) S = w
      rw [show wstep w p = w by simp [wstep, hp]]
      exact ih (fun q hq => h q (List.mem_cons_of_mem _ hq))

theorem wrun_pushes (S : List CacheEntry) (w : List CacheEntry)
    (hnd : S.Nodup) (hw : w.length = 3)
    (hcond : ∀ (pre suf : List CacheEntry) (p : CacheEntry),
      S = pre ++ p :: suf → pre.length < 3 → p ∉ w.drop pre.length) :
    wrun w S = (w ++ S).drop S.length := by
  induction S generalizing w with
  | nil => simp [wrun]
  | cons p S ih =>
      have hp : p ∉ w := by
        have := hcond [] S p (by simp) (by norm_num)
        simpa using this
      show wrun (wstep w p) S = (w ++ p :: S).drop (S.length + 1)
      rw [show wstep w p = w.tail ++ [p] by simp [wstep, hp]]
      have hwt : (w.tail ++ [p]).length = 3 := by
        simp [List.length_tail, hw]
      have hcond' : ∀ (pre suf : List CacheEntry) (q : CacheEntry),
          S = pre ++ q :: suf → pre.length < 3 →
          q ∉ (w.tail ++ [p]).drop pre.length := by
        intro pre suf q hSq hlt hqmem
        have hqp : q ≠ p := by
          intro he
          subst he
          have hq : q ∈ S := by
            rw [hSq]
            exact List.mem_append.mpr (Or.inr (List.mem_cons_self _ _))
          exact (List.nodup_cons.mp hnd).1 hq
        have htl : w.tail = w.drop 1 := (List.drop_one w).symm
        rcases Nat.lt_or_ge pre.length 2 with h2 | h2
        · have hdec : (w.tail ++ [p]).drop pre.length =
              w.drop (pre.length + 1) ++ [p] := by
            rw [List.drop_append_of_le_length (by simp [List.length_tail, hw]; omega),
              htl, List.drop_drop]
            congr 2
            omega
          rw [hdec] at hqmem
          rcases List.mem_append.mp hqmem with hmem | hmem
          · exact hcond (p :: pre) suf q (by simp [hSq]) (by simp; omega)
              (by simpa using hmem)
          · simp at hmem
            exact hqp hmem
        · have hpre2 : pre.length = 2 := by omega
          have : (w.tail ++ [p]).drop pre.length = [p] := by
            rw [hpre2, drop_append_ge _ _ _ (by simp [List.length_tail, hw])]
            have : w.tail.length = 2 := by simp [List.length_tail, hw]
            simp [this]
          rw [this] at hqmem
          simp at hqmem
          exact hqp hqmem
      rw [ih (w.tail ++ [p]) (List.nodup_cons.mp hnd).2 hwt hcond']
      obtain ⟨wh, wt, hwht⟩ : ∃ wh wt, w = wh :: wt := by
        cases w with
        | nil => simp at hw
        | cons a l => exact ⟨a, l, rfl⟩
      subst hwht
      simp [List.drop_succ_cons]

theorem wrun_once_char (S : List CacheEntry) (hnd : S.Nodup)
    (hS : ∀ p ∈ S, p ≠ emptyEntry) :
    wrun w0cache S = (w0cache ++ S).drop S.length := by
  apply wrun_pushes S w0cache hnd (by rfl)
  intro pre suf p hSeq hlt hmem
  have hpw : p ∈ w0cache := List.mem_of_mem_drop hmem
  have hpe : p = emptyEntry := by
    simpa [w0cache] using hpw
  have hpS : p ∈ S := by
    rw [hSeq]
    exact List.mem_append.mpr (Or.inr (List.mem_cons_self _ _))
  exact hS p hpS hpe

theorem wrun_twice (S : List CacheEntry) (hnd : S.Nodup)
    (hS : ∀ p ∈ S, p ≠ emptyEntry) :
    wrun (wrun w0cache S) S = wrun w0cache S := by
  have hrun1 := wrun_once_char S hnd hS
  by_cases hn : S.length ≤ 3
  · apply wrun_all_mem
    intro p hp
    rw [hrun1, List.drop_append_eq_append_drop]
    exact List.mem_append.mpr (Or.inr (by
      have : S.length - w0cache.length = 0 := by
        simp [w0cache]; omega
      rw [this, List.drop_zero]; exact hp))
  · push_neg at hn
    have hw1len : (wrun w0cache S).length = 3 := by
      rw [hrun1]
      simp [w0cache]
      omega
    have hrun2 : wrun (wrun w0cache S) S =
        ((wrun w0cache S) ++ S).drop S.length := by
      apply wrun_pushes S _ hnd hw1len
      intro pre suf p hSeq hlt hmem
      rw [hrun1, List.drop_drop] at hmem
      have hge : (w0cache ++ S).drop (S.length + pre.length) =
          S.drop (S.length + pre.length - 3) := by
        apply drop_append_ge
        simp [w0cache]
        omega
      rw [hge] at hmem
      have hsuf : S.drop (pre.length + 1) = suf := by
        rw [hSeq]
        rw [show pre.length + 1 = (pre ++ [p]).length by simp]
        rw [show pre ++ p :: suf = (pre ++ [p]) ++ suf by simp]
        exact drop_len_append _ _ rfl
      have hdecomp : S.drop (S.length + pre.length - 3) =
          suf.drop (S.length + pre.length - 3 - (pre.length + 1)) := by
        rw [← hsuf, List.drop_drop]
        congr 1
        omega
      rw [hdecomp] at hmem
      have hpsuf : p ∈ suf := List.mem_of_mem_drop hmem
      have hnps : (p :: suf).Nodup := by
        apply List.Nodup.sublist _ (hSeq ▸ hnd)
        exact List.sublist_append_right pre (p :: suf)
      exact (List.nodup_cons.mp hnps).1 hpsuf
    have hW : (w0cache ++ S).drop S.length = S.drop (S.length - 3) := by
      apply drop_append_ge
      simp [w0cache]
      omega
    have hlen3 : (S.drop (S.length - 3)).length = 3 := by
      simp [List.length_drop]
      omega
    rw [hrun2, hrun1, hW]
    rw [drop_append_ge _ _ _ (by rw [hlen3]; omega)]
    rw [hlen3]

theorem cacheHas_mem (c : List CacheEntry) (p : CacheEntry) :
    cacheHas c p.src p.msgHash = true ↔ p ∈ c := by
  rw [cacheHas_iff]
  constructor
  · rintro ⟨e, he, h1, h2⟩
    have he2 : e = p := by
      cases e; cases p; simp_all
    rwa [← he2]
  · intro hp
    exact ⟨p, hp, rfl, rfl⟩

theorem wordOf_cacheStep (s : List CacheEntry × Nat) (p : CacheEntry)
    (hlen : s.1.length = 3) (hidx : s.2 < 3) :
    wordOf (cacheStep s p) = wstep (wordOf s) p ∧
    (cacheStep s p).1.length = 3 ∧ (cacheStep s p).2 < 3 := by
  obtain ⟨l, i⟩ := s
  simp only at hlen hidx
  by_cases hp : p ∈ l
  · have hh : cacheHas l p.src p.msgHash = true := (cacheHas_mem _ _).mpr hp
    have hcs : cacheStep (l, i) p = (l, i) := by
      simp [cacheStep, isNew, hh]
    have hw : p ∈ wordOf (l, i) := by
      rw [wordOf]; exact List.mem_rotate.mpr hp
    rw [hcs, show wstep (wordOf (l, i)) p = wordOf (l, i) by simp [wstep, hw]]
    exact ⟨rfl, hlen, hidx⟩
  · have hh : ¬ cacheHas l p.src p.msgHash = true :=
      fun hcon => hp ((cacheHas_mem _ _).mp hcon)
    have hw : p ∉ wordOf (l, i) := fun hcon => hp (List.mem_rotate.mp hcon)
    have hcs : cacheStep (l, i) p = (l.set i p, (i + 1) % 3) := by
      simp [cacheStep, isNew, hh, CACHE_SIZE]
    rw [hcs, show wstep (wordOf (l, i)) p = (wordOf (l, i)).tail ++ [p] by
      simp [wstep, hw]]
    obtain ⟨a, b, c, habc⟩ := List.length_eq_three.mp hlen
    subst habc
    refine ⟨?_, by simp, Nat.mod_lt _ (by norm_num)⟩
    unfold wordOf
    interval_cases i
    · simp only [List.set]
      rw [List.rotate_zero,
        List.rotate_eq_drop_append_take (by norm_num : 1 ≤ ([p, b, c] : List CacheEntry).length)]
      rfl
    · simp only [List.set]
      rw [List.rotate_eq_drop_append_take (by norm_num : 2 ≤ ([a, p, c] : List CacheEntry).length),
        List.rotate_eq_drop_append_take (by norm_num : 1 ≤ ([a, b, c] : List CacheEntry).length)]
      rfl
    · simp only [List.set]
      rw [show (2 + 1) % 3 = 0 by norm_num, List.rotate_zero,
        List.rotate_eq_drop_append_take (by norm_num : 2 ≤ ([a, b, c] : List CacheEntry).length)]
      rfl

theorem wordOf_runCache (ps : List CacheEntry) (s : List CacheEntry × Nat)
    (hlen : s.1.length = 3) (hidx : s.2 < 3) :
    wordOf (runCache s ps) = wrun (wordOf s) ps ∧
    (runCache s ps).1.length = 3 ∧ (runCache s ps).2 < 3 := by
  induction ps generalizing s with
  | nil => exact ⟨rfl, hlen, hidx⟩
  | cons p ps ih =>
      obtain ⟨h1, h2, h3⟩ := wordOf_cacheStep s p hlen hidx
      obtain ⟨ih1, ih2, ih3⟩ := ih (cacheStep s p) h2 h3
      refine ⟨?_, ih2, ih3⟩
      show wordOf (runCache (cacheStep s p) ps) = wrun (wstep (wordOf s) p) ps
      rw [ih1, h1]

/-- C8 (amended): for a sequence S of pairwise-distinct (src, hash)
pairs, none equal to the default slot content, running S through
checkAndInsert twice in succession from the boot cache yields the same
final cache contents as running S once, up to rotation of the ring. -/
theorem C8_thm (S : List CacheEntry) (hnd : S.Nodup)
    (hS : ∀ p ∈ S, p ≠ emptyEntry) :
    ∃ k, k < CACHE_SIZE ∧
      (runCache initialCachePair (S ++ S)).1 =
        ((runCache initialCachePair S).1).rotate k := by
  have hw0 : wordOf initialCachePair = w0cache := by
    simp [wordOf, initialCachePair, w0cache]
  obtain ⟨b1, bl1, bi1⟩ := wordOf_runCache S initialCachePair rfl (by decide)
  obtain ⟨b2, bl2, bi2⟩ :=
    wordOf_runCache (S ++ S) initialCachePair rfl (by decide)
  have hww : wordOf (runCache initialCachePair (S ++ S)) =
      wordOf (runCache initialCachePair S) := by
    rw [b1, b2, hw0, show wrun w0cache (S ++ S) = wrun (wrun w0cache S) S from
      wrun_append w0cache S S]
    exact wrun_twice S hnd hS
  unfold wordOf at hww
  refine ⟨((runCache initialCachePair S).2 +
    (3 - (runCache initialCachePair (S ++ S)).2)) % 3,
    Nat.mod_lt _ (by norm_num), ?_⟩
  have e1 : (runCache initialCachePair (S ++ S)).1 =
      (((runCache initialCachePair (S ++ S)).1.rotate
        (runCache initialCachePair (S ++ S)).2).rotate
        (3 - (runCache initialCachePair (S ++ S)).2)) := by
    rw [List.rotate_rotate,
      show (runCache initialCachePair (S ++ S)).2 +
        (3 - (runCache initialCachePair (S ++ S)).2) = 3 by omega,
      show (3 : Nat) = (runCache initialCachePair (S ++ S)).1.length from bl2.symm,
      List.rotate_length]
  rw [e1, hww, List.rotate_rotate,
    show (((runCache initialCachePair S).2 +
      (3 - (runCache initialCachePair (S ++ S)).2)) % 3) =
      (((runCache initialCachePair S).2 +
      (3 - (runCache initialCachePair (S ++ S)).2)) %
        (runCache initialCachePair S).1.length) by rw [bl1],
    List.rotate_mod]

/-- C8 counterexample: for the seven-pair sequence ceSeq (which repeats
one pair), the cache after running it twice is not any rotation of the
cache after running it once, so the claim fails for general sequences. -/
theorem C8_counterexample :
    ¬ ∃ k : Nat, (runCache initialCachePair (ceSeq ++ ceSeq)).1 =
      ((runCache initialCachePair ceSeq).1).rotate k := by
  rintro ⟨k, hk⟩
  have hlen : ((runCache initialCachePair ceSeq).1).length = 3 := by decide
  rw [← List.rotate_mod, hlen] at hk
  have h3 : k % 3 < 3 := Nat.mod_lt _ (by norm_num)
  set m := k % 3 with hm
  interval_cases m
  · exact absurd hk (by decide)
  · exact absurd hk (by decide)
  · exact absurd hk (by decide)

/-- C8 witness: two distinct fresh pairs run twice reproduce the
single-run cache up to rotation. -/
theorem C8_witness :
    ∃ k, k < CACHE_SIZE ∧
      (runCache initialCachePair
        ([⟨['a'], 1⟩, ⟨['b'], 2⟩] ++ [⟨['a'], 1⟩, ⟨['b'], 2⟩])).1 =
        ((runCache initialCachePair [⟨['a'], 1⟩, ⟨['b'], 2⟩]).1).rotate k :=
  C8_thm [⟨['a'], 1⟩, ⟨['b'], 2⟩] (by decide) (by decide)

end DLiFi
